import Mathlib

/-!
Verification of the annotation-capture-and-replay engine and the page
structure editor of the pdf-client repository.

The definitions below are a shallow embedding of the JavaScript source:

* `PdfEditor.jsx` — gesture commit (`stopDrawing`, `confirmText`), the
  screen-to-document coordinate transform, and the save pipeline
  (`handleSave`) that replays committed annotations as pdf-lib drawing
  operations;
* `OrganizeScreen.jsx` — the bulk page operations `handleRotate` and
  `handleDelete`.

Geometric quantities are modelled with rationals (ℚ); JavaScript numeric
code carries no intentional overflow here, so exact arithmetic is the
intended reading of the formulas.
-/

namespace PdfClient

/-- A 2D point, a pair of rationals (screen or document coordinates). -/
abbrev Point := ℚ × ℚ

/-- An RGB color as passed to pdf-lib `rgb(r, g, b)`. -/
structure Color where
  r : ℚ
  g : ℚ
  b : ℚ
deriving DecidableEq, Repr

/-- The `rgb` constructor of pdf-lib. -/
def rgb (r g b : ℚ) : Color := ⟨r, g, b⟩

/-- The active tool of the editor toolbar (`tool` state in PdfEditor.jsx). -/
inductive Tool where
  | view
  | pen
  | highlight
  | rect
  | text
  | image
  | note
deriving DecidableEq, Repr

/-- A committed annotation record, as built by the commit handlers in
PdfEditor.jsx (`stopDrawing`, `handleCanvasClick`, `confirmText`).  All
geometry is in screen pixels as captured.  For an image annotation,
`bytesOk` abstracts whether the staged file bytes decode successfully when
embedded during replay (`embedJpg` / `embedPng` throw on corrupt data). -/
inductive Ann where
  | path (points : List Point) (color : String) (width : ℚ)
  | text (content : String) (x y size : ℚ)
  | rect (x y width height : ℚ) (color : String)
  | image (x y width height : ℚ) (mime : String) (bytesOk : Bool)
  | note (content : String) (x y size : ℚ)
deriving DecidableEq, Repr

/-- A drawing operation emitted into the page content during replay: the
pdf-lib calls `drawLine`, `drawText`, `drawRectangle`, `drawImage` with the
arguments the source passes. -/
inductive Op where
  | line (start stop : Point) (thickness : ℚ) (color : Color) (opacity : ℚ)
  | text (content : String) (x y size : ℚ) (color : Color)
  | rect (x y width height : ℚ) (border : Option (Color × ℚ)) (fill : Option Color)
  | image (x y width height : ℚ) (embedKind : String)
deriving DecidableEq, Repr

/-- JavaScript `String.prototype.includes`, on the character lists of the
two strings: does `sub` occur as a contiguous run inside `s`. -/
def containsSeq (sub : List Char) : List Char → Bool
  | [] => sub.isEmpty
  | c :: rest => sub.isPrefixOf (c :: rest) || containsSeq sub rest

/-- JavaScript `s.includes(sub)`. -/
def jsIncludes (s sub : String) : Bool := containsSeq sub.toList s.toList

/-- Whitespace characters removed by JavaScript `String.prototype.trim`
(the common subset: space, tab, line feed, carriage return, form feed,
vertical tab). -/
def jsWhitespace (c : Char) : Bool :=
  c = ' ' || c = '\t' || c = '\n' || c = '\r' || c = '\x0c' || c = '\x0b'

/-- JavaScript `s.trim()`: strip leading and trailing whitespace. -/
def jsTrim (s : String) : String :=
  ⟨((s.toList.dropWhile jsWhitespace).reverse.dropWhile jsWhitespace).reverse⟩

/-- Screen-to-document point map used in the path and text branches of
`handleSave`: `x * scaleX` and `pdfPageHeight - y * scaleY`. -/
def transformPt (ph sx sy : ℚ) (p : Point) : Point :=
  (p.1 * sx, ph - p.2 * sy)

/-- The full screen-to-document map with the scale factors recomputed from
render dimensions `(rw, rh)` and intrinsic page size `(pw, ph)`, exactly as
`handleSave` computes `scaleX = pdfPageWidth / renderedDim.width` and
`scaleY = pdfPageHeight / renderedDim.height`. -/
def toDocPoint (rw rh pw ph : ℚ) (p : Point) : Point :=
  transformPt ph (pw / rw) (ph / rh) p

/-- Modelled from the spec: the inverse of the §4.1 screen-to-document map
(the spec asserts the transform is symmetric but the source contains only
the forward direction).  Solving `docX = x * sx` and `docY = ph - y * sy`
for the screen point gives `x = docX / sx` and `y = (ph - docY) / sy`. -/
def toScreenPoint (rw rh pw ph : ℚ) (q : Point) : Point :=
  (q.1 / (pw / rw), (ph - q.2) / (ph / rh))

/-- Normalized rectangle (canonical positive-extent box). -/
structure NRect where
  x : ℚ
  y : ℚ
  w : ℚ
  h : ℚ
deriving DecidableEq, Repr

/-- Rectangle normalization from the rect branch of `handleSave`:
`if (cW < 0) { cX += cW; cW = Math.abs(cW); }` and likewise for the
height. -/
def normalizeRect (x y w h : ℚ) : NRect :=
  let xw := if w < 0 then (x + w, |w|) else (x, w)
  let yh := if h < 0 then (y + h, |h|) else (y, h)
  ⟨xw.1, yh.1, xw.2, yh.2⟩

/-- Which pdf-lib embedding path an image file takes: `embedJpg` for JPEG
mime kinds, `embedPng` otherwise. -/
def embedKind (mime : String) : String :=
  if mime = "image/jpeg" || mime = "image/jpg" then "jpg" else "png"

/-- Draw one annotation: the body of the per-annotation loop of
`handleSave`, producing the list of drawing operations it performs, or an
error when a step of it throws (image bytes that fail to embed). -/
def drawAnn (ph sx sy : ℚ) : Ann → Except String (List Op)
  | .path points colorStr width =>
      let color := if jsIncludes colorStr "255, 255, 0" then rgb 1 1 0 else rgb 1 0 0
      let pathData := points.map (transformPt ph sx sy)
      if pathData.length > 1 then
        let isHighlight := jsIncludes colorStr "255, 255, 0" || jsIncludes colorStr "0, 0.5"
        let opacityVal : ℚ := if isHighlight then 1/2 else 1
        let scaledWidth := width * sx
        .ok ((pathData.zip pathData.tail).map fun s =>
          .line s.1 s.2 scaledWidth color opacityVal)
      else .ok []
  | .text content x y size =>
      .ok [.text content (x * sx) (ph - y * sy) (size * sy) (rgb 0 0 0)]
  | .rect x y w h _ =>
      let n := normalizeRect x y w h
      .ok [.rect (n.x * sx) (ph - (n.y + n.h) * sy) (n.w * sx) (n.h * sy)
        (some (rgb 0 0 1, 3 * sx)) none]
  | .image x y w h mime bytesOk =>
      if bytesOk then
        let pdfW := w * sx
        let pdfH := h * sy
        .ok [.image (x * sx) (ph - y * sy - pdfH) pdfW pdfH (embedKind mime)]
      else .error "embed failed"
  | .note content x y _ =>
      let noteW := 150 * sx
      let noteH := 100 * sy
      let px := x * sx
      let py := ph - y * sy - noteH
      .ok [.rect px py noteW noteH none (some (rgb 1 (92/100) (23/100))),
        .text content (px + 10 * sx) (py + noteH - 20 * sy) (14 * sy) (rgb 0 0 0)]

/-- Replay one page annotation list in stored order.  Each draw attempt is
wrapped individually (the inner try/catch of `handleSave`): on an error the
message is logged and the annotation skipped, and the rest of the list is
still processed. -/
def replayAnns (ph sx sy : ℚ) : List Ann → List Op × List String
  | [] => ([], [])
  | a :: rest =>
      let tailRes := replayAnns ph sx sy rest
      match drawAnn ph sx sy a with
      | .ok ops => (ops ++ tailRes.1, tailRes.2)
      | .error e => (tailRes.1, ("Error processing annotation: " ++ e) :: tailRes.2)

/-- Per-page context at save time: intrinsic page size from
`page.getSize()` and the render dimensions recorded for the page
(`pageDims[pageNum]`), absent when the page was never rasterized. -/
structure PageState where
  pdfW : ℚ
  pdfH : ℚ
  renderDims : Option (ℚ × ℚ)
deriving DecidableEq, Repr

/-- Horizontal scale factor recomputed at save time:
`pdfPageWidth / renderedDim.width`, with the intrinsic size as the fallback
render dimensions (`pageDims[pageNum] || { width: pdfPageWidth, ... }`). -/
def pageSx (p : PageState) : ℚ := p.pdfW / (p.renderDims.getD (p.pdfW, p.pdfH)).1

/-- Vertical scale factor recomputed at save time. -/
def pageSy (p : PageState) : ℚ := p.pdfH / (p.renderDims.getD (p.pdfW, p.pdfH)).2

/-- Replay one page with its recomputed scale factors. -/
def replayPage (p : PageState) (anns : List Ann) : List Op × List String :=
  replayAnns p.pdfH (pageSx p) (pageSy p) anns

/-- Replay every page with annotations, in the order the page keys are
enumerated (ascending page number), concatenating drawing operations and
logs. -/
def replayPages : List (PageState × List Ann) → List Op × List String
  | [] => ([], [])
  | pg :: rest =>
      let here := replayPage pg.1 pg.2
      let tailRes := replayPages rest
      (here.1 ++ tailRes.1, here.2 ++ tailRes.2)

/-- Outcome of `handleSave`: either the edited document is produced
(drawing operations applied, log accumulated), or the outer catch fires,
offering the diagnostic log for download and aborting the save. -/
inductive SaveResult where
  | ok (ops : List Op) (logs : List String)
  | fatal (logs : List String)
deriving DecidableEq, Repr

/-- The save pipeline of `handleSave` after the bytes are fetched and
parsed.  When a password is set the code calls `pdfDoc.encrypt(...)`
unconditionally inside the single try block; `encryptSupported` abstracts
whether the loaded pdf-lib runtime has that capability (released pdf-lib
has no `PDFDocument.encrypt`, so the call throws).  Any exception inside
the try block lands in the outer catch, which aborts the whole save. -/
def handleSave (password : String) (encryptSupported : Bool)
    (pages : List (PageState × List Ann)) : SaveResult :=
  if password ≠ "" ∧ encryptSupported = false then
    .fatal ["CRITICAL ERROR: pdfDoc.encrypt is not a function"]
  else
    let res := replayPages pages
    .ok res.1 res.2

/-- Stroke color fixed per tool by `stopDrawing`:
`tool === 'highlight' ? 'rgba(255, 255, 0, 0.5)' : 'red'`. -/
def pathColor (t : Tool) : String :=
  if t = Tool.highlight then "rgba(255, 255, 0, 0.5)" else "red"

/-- Stroke width fixed per tool by `stopDrawing`:
`tool === 'highlight' ? 20 : 2`. -/
def pathWidth (t : Tool) : ℚ :=
  if t = Tool.highlight then 20 else 2

/-- The path branch of `stopDrawing`: a pen or highlight gesture always
commits one path annotation holding the captured points, with no point
count threshold. -/
def stopDrawingPath (t : Tool) (currentPath : List Point) (anns : List Ann) :
    List Ann :=
  anns ++ [Ann.path currentPath (pathColor t) (pathWidth t)]

/-- The in-progress rectangle state (`currentRect` in PdfEditor.jsx). -/
structure CurrentRect where
  x : ℚ
  y : ℚ
  width : ℚ
  height : ℚ
  startX : ℚ
  startY : ℚ
deriving DecidableEq, Repr

/-- Rect pointer-down (`startDrawing`): anchor the drag at the pointer. -/
def startRect (ox oy : ℚ) : CurrentRect := ⟨ox, oy, 0, 0, ox, oy⟩

/-- Rect pointer-move (`draw`): live width and height relative to the
anchor, either of which may go negative. -/
def moveRect (r : CurrentRect) (ox oy : ℚ) : CurrentRect :=
  { r with width := ox - r.startX, height := oy - r.startY }

/-- The rect branch of `stopDrawing`: commit only when
`Math.abs(width) > 5 || Math.abs(height) > 5`, else discard. -/
def stopDrawingRect (r : CurrentRect) (anns : List Ann) : List Ann :=
  if 5 < |r.width| ∨ 5 < |r.height| then
    anns ++ [Ann.rect r.x r.y r.width r.height "blue"]
  else anns

/-- The kind of inline input opened by `handleCanvasClick`. -/
inductive TKind where
  | text
  | note
deriving DecidableEq, Repr

/-- The inline input state (`textInput` in PdfEditor.jsx). -/
structure TextInput where
  x : ℚ
  y : ℚ
  value : String
  page : ℕ
  kind : TKind
deriving DecidableEq, Repr

/-- The per-page annotation store, keyed by page number; a missing key
reads as the empty list (`prev[page] || []`). -/
abbrev Store := ℕ → List Ann

/-- Append one annotation to one page of the store. -/
def storeAdd (store : Store) (page : ℕ) (a : Ann) : Store :=
  fun q => if q = page then store page ++ [a] else store q

/-- The annotation record committed by `confirmText`:
`{ type, text, x, y, size: 16 }`. -/
def mkTextAnn (t : TextInput) : Ann :=
  match t.kind with
  | .text => Ann.text t.value t.x t.y 16
  | .note => Ann.note t.value t.x t.y 16

/-- `confirmText` (run on confirm or blur of the inline input): when the
trimmed content is non-empty, append one text or note annotation to the
page the input was opened on; in every case clear the input and return the
tool to view. -/
def confirmText (ti : Option TextInput) (store : Store) : Store × Tool :=
  match ti with
  | some t =>
      if jsTrim t.value ≠ "" then (storeAdd store t.page (mkTextAnn t), Tool.view)
      else (store, Tool.view)
  | none => (store, Tool.view)

/-- Rotation delta from the pressed button in `handleRotate`:
`direction === 'left' ? -90 : 90`. -/
def rotateDelta (direction : String) : ℤ :=
  if direction = "left" then -90 else 90

/-- Apply the rotation delta to every selected in-range page, modelling
the `selectedPages.forEach` loop that sets each selected page rotation to
`currentRotation + angle`.  The document is the list of page rotation
angles; `k` is the index of the first page of `rots`. -/
def rotatePages (sel : Finset ℕ) (delta : ℤ) : ℕ → List ℤ → List ℤ
  | _, [] => []
  | k, r :: rest =>
      (if k ∈ sel then r + delta else r) :: rotatePages sel delta (k + 1) rest

/-- `handleRotate`: with an empty selection, alert the user and leave the
document untouched (the callback returns before mutating); otherwise add
the delta to each selected page rotation.  The boolean is the warning. -/
def handleRotate (rots : List ℤ) (sel : Finset ℕ) (direction : String) :
    List ℤ × Bool :=
  if sel = ∅ then (rots, true)
  else (rotatePages sel (rotateDelta direction) 0 rots, false)

/-- `handleDelete` after confirmation: sort the selected indices
descending (`sort((a, b) => b - a)`) and remove each page in turn
(`pdfDoc.removePage(index)`). -/
def handleDelete {α : Type} (pages : List α) (sel : Finset ℕ) : List α :=
  ((sel.sort (· ≤ ·)).reverse).foldl (fun d i => d.eraseIdx i) pages

/-- Modelled from the spec sentence for Delete: the surviving pages are
the pages whose index is not selected, in their original relative order;
`k` is the index of the first page of the list. -/
def survivorsFrom {α : Type} (sel : Finset ℕ) : ℕ → List α → List α
  | _, [] => []
  | k, a :: rest =>
      if k ∈ sel then survivorsFrom sel (k + 1) rest
      else a :: survivorsFrom sel (k + 1) rest

/-- The surviving pages of a delete, per the spec. -/
def survivors {α : Type} (pages : List α) (sel : Finset ℕ) : List α :=
  survivorsFrom sel 0 pages

/-- C1 counterexample: as stated, the claim only assumes positive render
dimensions.  With a degenerate document page size `(pw, ph) = (0, 0)` both
scale factors are zero, the forward map collapses every screen point to
`(0, 0)` (in JavaScript the inverse then divides zero by zero), and the
round trip does not recover the screen point `(1, 1)`. -/
theorem c1_roundtrip_cex :
    (0 : ℚ) < 1 ∧ (0 : ℚ) < 1 ∧
      toScreenPoint 1 1 0 0 (toDocPoint 1 1 0 0 (1, 1)) ≠ (1, 1) := by
  refine ⟨by norm_num, by norm_num, ?_⟩
  simp only [toScreenPoint, toDocPoint, transformPt, Prod.ext_iff]
  norm_num

/-- C1 (amended): with positive render dimensions and positive document
page size, transforming a screen point to document space and applying the
inverse recovers the point exactly over the rationals. -/
theorem c1_roundtrip (rw rh pw ph x y : ℚ) (hrw : 0 < rw) (hrh : 0 < rh)
    (hpw : 0 < pw) (hph : 0 < ph) :
    toScreenPoint rw rh pw ph (toDocPoint rw rh pw ph (x, y)) = (x, y) := by
  have h1 : pw / rw ≠ 0 := div_ne_zero hpw.ne' hrw.ne'
  have h2 : ph / rh ≠ 0 := div_ne_zero hph.ne' hrh.ne'
  have e1 : x * (pw / rw) / (pw / rw) = x := mul_div_cancel_right₀ x h1
  have e2 : y * (ph / rh) / (ph / rh) = y := mul_div_cancel_right₀ y h2
  simp [toScreenPoint, toDocPoint, transformPt, e1, e2]

/-- Witness for the amended C1 at the spec scenario dimensions: a 600×800
render of a 300×400 page round-trips the point `(10, 10)`. -/
theorem c1_roundtrip_witness :
    (0 : ℚ) < 600 ∧ (0 : ℚ) < 800 ∧ (0 : ℚ) < 300 ∧ (0 : ℚ) < 400 ∧
      toScreenPoint 600 800 300 400 (toDocPoint 600 800 300 400 (10, 10)) =
        (10, 10) :=
  ⟨by norm_num, by norm_num, by norm_num, by norm_num,
    c1_roundtrip 600 800 300 400 10 10 (by norm_num) (by norm_num)
      (by norm_num) (by norm_num)⟩

/-- Normalization yields the absolute width. -/
lemma normalizeRect_w (x y w h : ℚ) : (normalizeRect x y w h).w = |w| := by
  simp only [normalizeRect]
  split_ifs <;> simp_all [abs_of_neg, abs_of_nonneg, le_of_not_lt]

/-- Normalization yields the absolute height. -/
lemma normalizeRect_h (x y w h : ℚ) : (normalizeRect x y w h).h = |h| := by
  simp only [normalizeRect]
  split_ifs <;> simp_all [abs_of_neg, abs_of_nonneg, le_of_not_lt]

/-- Normalization anchors at the minimum x corner. -/
lemma normalizeRect_x (x y w h : ℚ) : (normalizeRect x y w h).x = min x (x + w) := by
  simp only [normalizeRect]
  split_ifs <;>
    first
      | (show x + w = min x (x + w)
         exact (min_eq_right (by linarith)).symm)
      | (show x = min x (x + w)
         exact (min_eq_left (by linarith)).symm)

/-- Normalization anchors at the minimum y corner. -/
lemma normalizeRect_y (x y w h : ℚ) : (normalizeRect x y w h).y = min y (y + h) := by
  simp only [normalizeRect]
  split_ifs <;>
    first
      | (show y + h = min y (y + h)
         exact (min_eq_right (by linarith)).symm)
      | (show y = min y (y + h)
         exact (min_eq_left (by linarith)).symm)

/-- C3: for every sign combination of the drag width and height, the
normalization in the rect branch of `handleSave` yields non-negative
extents `|w|` and `|h|` anchored at the minimum corner, preserves the area
`|w * h|`, and the emitted rectangle sits at document anchor
`ph - (yNorm + hNorm) * sy`. -/
theorem c3_rect_normalization (ph sx sy x y w h : ℚ) :
    (normalizeRect x y w h).w = |w| ∧
    (normalizeRect x y w h).h = |h| ∧
    (normalizeRect x y w h).x = min x (x + w) ∧
    (normalizeRect x y w h).y = min y (y + h) ∧
    (normalizeRect x y w h).w * (normalizeRect x y w h).h = |w * h| ∧
    drawAnn ph sx sy (Ann.rect x y w h "blue") =
      Except.ok [Op.rect ((normalizeRect x y w h).x * sx)
        (ph - ((normalizeRect x y w h).y + (normalizeRect x y w h).h) * sy)
        ((normalizeRect x y w h).w * sx) ((normalizeRect x y w h).h * sy)
        (some (rgb 0 0 1, 3 * sx)) none] :=
  ⟨normalizeRect_w x y w h, normalizeRect_h x y w h, normalizeRect_x x y w h,
    normalizeRect_y x y w h,
    by rw [normalizeRect_w, normalizeRect_h, abs_mul], rfl⟩

/-- C4: the code makes a failing encryption step fatal.  `handleSave`
calls `pdfDoc.encrypt` inside the one try block; when the loaded runtime
lacks that capability (as released pdf-lib does) the call throws, the
outer catch fires, and the whole save aborts with the diagnostic log —
annotation replay and serialization never run, contradicting the claim
that an encryption failure never aborts the save. -/
theorem c4_encrypt_failure_fatal (pages : List (PageState × List Ann)) :
    handleSave "secret" false pages =
      SaveResult.fatal ["CRITICAL ERROR: pdfDoc.encrypt is not a function"] := by
  rw [handleSave, if_pos ⟨by decide, rfl⟩]

/-- C8: the rect branch of `stopDrawing` commits exactly when
`|width| > 5` or `|height| > 5`; a drag inside the dead zone leaves the
annotation list unchanged. -/
theorem c8_rect_deadzone (r : CurrentRect) (anns : List Ann) :
    ((5 < |r.width| ∨ 5 < |r.height|) →
      stopDrawingRect r anns =
        anns ++ [Ann.rect r.x r.y r.width r.height "blue"]) ∧
    (|r.width| ≤ 5 ∧ |r.height| ≤ 5 → stopDrawingRect r anns = anns) ∧
    (stopDrawingRect r anns ≠ anns ↔ (5 < |r.width| ∨ 5 < |r.height|)) := by
  refine ⟨fun hc => by rw [stopDrawingRect, if_pos hc],
    fun hc => by
      rw [stopDrawingRect, if_neg]
      push_neg
      exact ⟨hc.1, hc.2⟩,
    ?_⟩
  constructor
  · intro hne
    by_contra hc
    exact hne (by rw [stopDrawingRect, if_neg hc])
  · intro hc he
    rw [stopDrawingRect, if_pos hc] at he
    simpa using congrArg List.length he

/-- Witness for C8: a 3px by 2px drag (built through the pointer-down and
pointer-move handlers) is inside the dead zone and commits nothing. -/
theorem c8_rect_deadzone_witness :
    |(moveRect (startRect 0 0) 3 2).width| ≤ 5 ∧
    |(moveRect (startRect 0 0) 3 2).height| ≤ 5 ∧
    stopDrawingRect (moveRect (startRect 0 0) 3 2) [] = [] := by
  have hw : |(moveRect (startRect 0 0) 3 2).width| ≤ 5 := by
    rw [show (moveRect (startRect 0 0) 3 2).width = 3 by
      norm_num [moveRect, startRect], abs_of_nonneg (by norm_num)]
    norm_num
  have hh : |(moveRect (startRect 0 0) 3 2).height| ≤ 5 := by
    rw [show (moveRect (startRect 0 0) 3 2).height = 2 by
      norm_num [moveRect, startRect], abs_of_nonneg (by norm_num)]
    norm_num
  exact ⟨hw, hh, (c8_rect_deadzone _ []).2.1 ⟨hw, hh⟩⟩

/-- C9: confirming or blurring the inline input appends exactly one text
or note annotation to the page it was opened on when the trimmed content
is non-empty, leaves the whole store untouched when it is empty, and in
both cases returns the tool to view. -/
theorem c9_confirm_text (t : TextInput) (store : Store) :
    (confirmText (some t) store).2 = Tool.view ∧
    (jsTrim t.value ≠ "" →
      (confirmText (some t) store).1 t.page = store t.page ++ [mkTextAnn t] ∧
      ∀ q, q ≠ t.page → (confirmText (some t) store).1 q = store q) ∧
    (jsTrim t.value = "" → (confirmText (some t) store).1 = store) := by
  by_cases hv : jsTrim t.value = ""
  · refine ⟨by simp [confirmText, hv], fun hne => absurd hv hne, fun _ => ?_⟩
    simp [confirmText, hv]
  · refine ⟨by simp [confirmText, hv], fun _ => ⟨?_, fun q hq => ?_⟩,
      fun he => absurd he hv⟩
    · simp [confirmText, hv, storeAdd]
    · simp [confirmText, hv, storeAdd, hq]

/-- Witness for C9: opening the text tool and blurring with blank content
adds no annotation anywhere and returns the tool to view. -/
theorem c9_confirm_text_witness :
    jsTrim "   " = "" ∧
    (confirmText (some ⟨1, 2, "   ", 1, TKind.text⟩) (fun _ => [])).1 =
      (fun _ => []) ∧
    (confirmText (some ⟨1, 2, "   ", 1, TKind.text⟩) (fun _ => [])).2 =
      Tool.view := by
  have h := c9_confirm_text ⟨1, 2, "   ", 1, TKind.text⟩ (fun _ => [])
  exact ⟨by decide, h.2.2 (by decide), h.1⟩

/-- C10: a pen or highlight gesture commits a path annotation
unconditionally at pointer-up, and replay of a committed path with fewer
than two points draws nothing and reports no error. -/
theorem c10_short_path (t : Tool) (pts : List Point) (anns : List Ann)
    (ph sx sy : ℚ) (hn : pts.length < 2) :
    stopDrawingPath t pts anns =
      anns ++ [Ann.path pts (pathColor t) (pathWidth t)] ∧
    drawAnn ph sx sy (Ann.path pts (pathColor t) (pathWidth t)) =
      Except.ok [] := by
  refine ⟨rfl, ?_⟩
  have hlen : ¬ ((pts.map (transformPt ph sx sy)).length > 1) := by
    rw [List.length_map]
    omega
  simp only [drawAnn, List.length_map]
  rw [if_neg (by rw [List.length_map] at hlen; exact hlen)]

/-- Witness for C10: a click without movement captures a one-point path,
which is committed and replays to zero segments. -/
theorem c10_short_path_witness :
    stopDrawingPath Tool.pen [(4, 5)] [] =
      [] ++ [Ann.path [(4, 5)] (pathColor Tool.pen) (pathWidth Tool.pen)] ∧
    drawAnn 100 1 1 (Ann.path [(4, 5)] (pathColor Tool.pen)
      (pathWidth Tool.pen)) = Except.ok [] :=
  c10_short_path Tool.pen [(4, 5)] [] 100 1 1 (by norm_num)

/-- Indexing into the consecutive-pairs list: position `i` of
`l.zip l.tail` holds the elements at positions `i` and `i + 1` of `l`. -/
lemma zipTail_getElem {α : Type} : ∀ (l : List α) (i : ℕ),
    (l.zip l.tail)[i]? = (l[i]?).bind fun a => (l[i + 1]?).map fun b => (a, b)
  | [], i => by simp
  | [a], i => by cases i <;> simp
  | a :: b :: rest, 0 => by simp
  | a :: b :: rest, (i + 1) => by
      have ih := zipTail_getElem (b :: rest) i
      simpa using ih

/-- C2: replay of a committed pen or highlight stroke with at least two
points emits exactly `n - 1` line segments, segment `i` joining the
transformed points `i` and `i + 1`, each with thickness equal to the
captured stroke width scaled by `sx`, at full opacity for a pen stroke and
at the reduced opacity one half for a highlight stroke. -/
theorem c2_path_replay (ph sx sy : ℚ) (t : Tool) (pts : List Point)
    (ht : t = Tool.pen ∨ t = Tool.highlight) (hn : 2 ≤ pts.length) :
    ∃ ops, drawAnn ph sx sy (Ann.path pts (pathColor t) (pathWidth t)) =
        Except.ok ops ∧
      ops.length = pts.length - 1 ∧
      (∀ i, i + 1 < pts.length →
        ops[i]? = some (Op.line (transformPt ph sx sy (pts.getD i (0, 0)))
          (transformPt ph sx sy (pts.getD (i + 1) (0, 0)))
          (pathWidth t * sx)
          (if t = Tool.highlight then rgb 1 1 0 else rgb 1 0 0)
          (if t = Tool.highlight then 1/2 else 1))) ∧
      (1/2 : ℚ) < 1 := by
  have hcond : (pts.map (transformPt ph sx sy)).length > 1 := by
    rw [List.length_map]
    omega
  have key : ∀ (c : Color) (o : ℚ),
      (∀ i, i + 1 < pts.length →
        (((pts.map (transformPt ph sx sy)).zip
            (pts.map (transformPt ph sx sy)).tail).map fun s =>
          Op.line s.1 s.2 (pathWidth t * sx) c o)[i]? =
        some (Op.line (transformPt ph sx sy (pts.getD i (0, 0)))
          (transformPt ph sx sy (pts.getD (i + 1) (0, 0)))
          (pathWidth t * sx) c o)) := by
    intro c o i hi
    have h1 : i < pts.length := by omega
    have e1 : pts[i]? = some (pts.getD i (0, 0)) := by
      rw [List.getElem?_eq_getElem h1, List.getD_eq_getElem?_getD,
        List.getElem?_eq_getElem h1]
      rfl
    have e2 : pts[i + 1]? = some (pts.getD (i + 1) (0, 0)) := by
      rw [List.getElem?_eq_getElem hi, List.getD_eq_getElem?_getD,
        List.getElem?_eq_getElem hi]
      rfl
    rw [List.getElem?_map, zipTail_getElem, List.getElem?_map,
      List.getElem?_map, e1, e2]
    rfl
  have klen : ∀ (c : Color) (o : ℚ),
      (((pts.map (transformPt ph sx sy)).zip
          (pts.map (transformPt ph sx sy)).tail).map fun s =>
        Op.line s.1 s.2 (pathWidth t * sx) c o).length = pts.length - 1 := by
    intro c o
    simp only [List.length_map, List.length_zip, List.length_tail]
    omega
  rcases ht with h | h <;> subst h
  · refine ⟨_, ?_, klen (rgb 1 0 0) 1, ?_, by norm_num⟩
    · show drawAnn ph sx sy (Ann.path pts (pathColor Tool.pen)
        (pathWidth Tool.pen)) = _
      rw [drawAnn]
      rw [show jsIncludes (pathColor Tool.pen) "255, 255, 0" = false from by decide,
        show jsIncludes (pathColor Tool.pen) "0, 0.5" = false from by decide]
      simp only [Bool.false_or, Bool.or_self, if_pos hcond, Bool.false_eq_true,
        if_false]
    · intro i hi
      have := key (rgb 1 0 0) 1 i hi
      simpa using this
  · refine ⟨_, ?_, klen (rgb 1 1 0) (1/2), ?_, by norm_num⟩
    · show drawAnn ph sx sy (Ann.path pts (pathColor Tool.highlight)
        (pathWidth Tool.highlight)) = _
      rw [drawAnn]
      rw [show jsIncludes (pathColor Tool.highlight) "255, 255, 0" = true from
        by decide]
      simp only [Bool.true_or, if_pos hcond, if_true]
    · intro i hi
      have := key (rgb 1 1 0) (1/2) i hi
      simpa using this

/-- Witness for C2 at the spec scenario: the 3-point pen stroke
`(10,10) → (20,10) → (20,20)` captured at a 600×800 render of a 300×400
page replays to exactly 2 line segments. -/
theorem c2_path_replay_witness :
    ∃ ops, drawAnn 400 (1/2) (1/2) (Ann.path [(10, 10), (20, 10), (20, 20)]
        (pathColor Tool.pen) (pathWidth Tool.pen)) = Except.ok ops ∧
      ops.length = 2 := by
  obtain ⟨ops, h1, h2, h3, h4⟩ := c2_path_replay 400 (1/2) (1/2) Tool.pen
    [(10, 10), (20, 10), (20, 20)] (Or.inl rfl) (by simp)
  exact ⟨ops, h1, by rw [h2]; rfl⟩

/-- Replay distributes over list append: the operations and logs of a
concatenation are the concatenations of the parts. -/
lemma replayAnns_append (ph sx sy : ℚ) (l1 l2 : List Ann) :
    replayAnns ph sx sy (l1 ++ l2) =
      ((replayAnns ph sx sy l1).1 ++ (replayAnns ph sx sy l2).1,
       (replayAnns ph sx sy l1).2 ++ (replayAnns ph sx sy l2).2) := by
  induction l1 with
  | nil => simp [replayAnns]
  | cons a rest ih =>
      simp only [List.cons_append, replayAnns]
      cases h : drawAnn ph sx sy a <;> simp [h, ih]

/-- Page replay distributes over list append. -/
lemma replayPages_append (ps qs : List (PageState × List Ann)) :
    replayPages (ps ++ qs) =
      ((replayPages ps).1 ++ (replayPages qs).1,
       (replayPages ps).2 ++ (replayPages qs).2) := by
  induction ps with
  | nil => simp [replayPages]
  | cons p rest ih => simp [replayPages, ih]

/-- C5: a failing draw of one annotation is isolated.  If `bad` fails to
draw, replay of the whole save still emits the operations of every earlier
annotation on that page, every later annotation on that page, and every
annotation on every earlier and later page, in order, and the failure is
logged. -/
theorem c5_annotation_isolation (pgF pgB : List (PageState × List Ann))
    (p : PageState) (front back : List Ann) (bad : Ann) (e : String)
    (hbad : drawAnn p.pdfH (pageSx p) (pageSy p) bad = Except.error e) :
    (replayPages (pgF ++ (p, front ++ bad :: back) :: pgB)).1 =
      (replayPages pgF).1 ++
        ((replayAnns p.pdfH (pageSx p) (pageSy p) front).1 ++
          (replayAnns p.pdfH (pageSx p) (pageSy p) back).1) ++
        (replayPages pgB).1 ∧
    ("Error processing annotation: " ++ e) ∈
      (replayPages (pgF ++ (p, front ++ bad :: back) :: pgB)).2 := by
  have hmid : replayAnns p.pdfH (pageSx p) (pageSy p) (front ++ bad :: back) =
      ((replayAnns p.pdfH (pageSx p) (pageSy p) front).1 ++
        (replayAnns p.pdfH (pageSx p) (pageSy p) back).1,
       (replayAnns p.pdfH (pageSx p) (pageSy p) front).2 ++
        ("Error processing annotation: " ++ e) ::
          (replayAnns p.pdfH (pageSx p) (pageSy p) back).2) := by
    rw [replayAnns_append]
    simp only [replayAnns, hbad]
  have hsplit := replayPages_append pgF ((p, front ++ bad :: back) :: pgB)
  have hcons : replayPages ((p, front ++ bad :: back) :: pgB) =
      ((replayPage p (front ++ bad :: back)).1 ++ (replayPages pgB).1,
       (replayPage p (front ++ bad :: back)).2 ++ (replayPages pgB).2) := rfl
  rw [hsplit, hcons]
  rw [show replayPage p (front ++ bad :: back) =
    replayAnns p.pdfH (pageSx p) (pageSy p) (front ++ bad :: back) from rfl]
  rw [hmid]
  constructor
  · simp [List.append_assoc]
  · simp

/-- Witness for C5: a PNG image whose bytes fail to embed is skipped with
a log entry while the surrounding text and note annotations, and the
following page, are still replayed. -/
theorem c5_annotation_isolation_witness :
    ("Error processing annotation: " ++ "embed failed") ∈
      (replayPages ([] ++ (⟨100, 200, none⟩,
        [Ann.text "a" 1 2 16] ++ Ann.image 1 1 10 10 "image/png" false ::
          [Ann.note "b" 3 4 16]) ::
        [(⟨50, 50, none⟩, [Ann.text "c" 0 0 16])])).2 :=
  (c5_annotation_isolation [] [(⟨50, 50, none⟩, [Ann.text "c" 0 0 16])]
    ⟨100, 200, none⟩ [Ann.text "a" 1 2 16] [Ann.note "b" 3 4 16]
    (Ann.image 1 1 10 10 "image/png" false) "embed failed" rfl).2

/-- Rotation keeps the page count. -/
lemma rotatePages_length (sel : Finset ℕ) (delta : ℤ) :
    ∀ (l : List ℤ) (k : ℕ), (rotatePages sel delta k l).length = l.length
  | [], _ => rfl
  | _ :: rest, k => by
      simp [rotatePages, rotatePages_length sel delta rest (k + 1)]

/-- Pointwise description of rotation: page `k + i` gains the delta
exactly when it is selected. -/
lemma rotatePages_getElem (sel : Finset ℕ) (delta : ℤ) :
    ∀ (l : List ℤ) (k i : ℕ),
      (rotatePages sel delta k l)[i]? =
        (l[i]?).map fun r => if (k + i) ∈ sel then r + delta else r
  | [], k, i => by simp [rotatePages]
  | r :: rest, k, 0 => by simp [rotatePages]
  | r :: rest, k, (i + 1) => by
      have ih := rotatePages_getElem sel delta rest (k + 1) i
      have harith : k + 1 + i = k + (i + 1) := by omega
      rw [harith] at ih
      simpa [rotatePages] using ih

/-- C6: rotating with an empty selection warns and leaves every page
rotation (the whole document state) unchanged; with a non-empty selection
there is no warning, the page count is kept, and each selected in-range
page gets the signed 90° delta added to its existing angle while the
others are untouched. -/
theorem c6_rotate (rots : List ℤ) (sel : Finset ℕ) (direction : String) :
    (sel = ∅ → handleRotate rots sel direction = (rots, true)) ∧
    (sel ≠ ∅ →
      (handleRotate rots sel direction).2 = false ∧
      (handleRotate rots sel direction).1.length = rots.length ∧
      ∀ i, ((handleRotate rots sel direction).1)[i]? =
        (rots[i]?).map fun r =>
          if i ∈ sel then r + rotateDelta direction else r) := by
  constructor
  · intro h
    rw [handleRotate, if_pos h]
  · intro h
    rw [handleRotate, if_neg h]
    refine ⟨rfl, rotatePages_length sel (rotateDelta direction) rots 0,
      fun i => ?_⟩
    simpa using rotatePages_getElem sel (rotateDelta direction) rots 0 i

/-- Witness for C6: an empty selection is a warned no-op on a two-page
document, and selecting only page 0 adds 90° to it (0 becomes 90) while
page 1 keeps its 30° angle. -/
theorem c6_rotate_witness :
    handleRotate [0, 30] ∅ "right" = ([0, 30], true) ∧
    ((handleRotate [0, 30] {0} "right").1)[0]? = some 90 ∧
    ((handleRotate [0, 30] {0} "right").1)[1]? = some 30 := by
  refine ⟨(c6_rotate [0, 30] ∅ "right").1 rfl, ?_, ?_⟩
  · rw [((c6_rotate [0, 30] {0} "right").2 (by decide)).2.2 0]
    simp [rotateDelta]
  · rw [((c6_rotate [0, 30] {0} "right").2 (by decide)).2.2 1]
    simp

/-- Unselected suffix: when every selected index lies below `k`, the tail
starting at index `k` survives unchanged. -/
lemma survivorsFrom_of_lt {α : Type} (sel : Finset ℕ) :
    ∀ (l : List α) (k : ℕ), (∀ j ∈ sel, j < k) → survivorsFrom sel k l = l
  | [], _, _ => rfl
  | a :: rest, k, h => by
      have hk : k ∉ sel := fun hk => absurd (h k hk) (lt_irrefl k)
      simp [survivorsFrom, hk,
        survivorsFrom_of_lt sel rest (k + 1) fun j hj => Nat.lt_succ_of_lt (h j hj)]

/-- Erasing the largest remaining index commutes with taking survivors:
when every index of `sel` lies strictly below `k + i`, filtering the
erased list by `sel` equals filtering the original list by
`insert (k + i) sel`. -/
lemma survivorsFrom_eraseIdx {α : Type} (sel : Finset ℕ) :
    ∀ (l : List α) (k i : ℕ), (∀ j ∈ sel, j < k + i) → i < l.length →
      survivorsFrom sel k (l.eraseIdx i) =
        survivorsFrom (insert (k + i) sel) k l
  | [], _, i, _, hi => absurd hi (by simp)
  | a :: rest, k, 0, hs, _ => by
      have hs0 : ∀ j ∈ sel, j < k := by simpa using hs
      have h1 : survivorsFrom sel k ((a :: rest).eraseIdx 0) = rest := by
        rw [show (a :: rest).eraseIdx 0 = rest from rfl]
        exact survivorsFrom_of_lt sel rest k hs0
      have hmem : k ∈ insert (k + 0) sel := by simp
      have h2 : survivorsFrom (insert (k + 0) sel) k (a :: rest) =
          survivorsFrom (insert (k + 0) sel) (k + 1) rest := by
        simp [survivorsFrom, hmem]
      have h3 : survivorsFrom (insert (k + 0) sel) (k + 1) rest = rest := by
        refine survivorsFrom_of_lt _ rest (k + 1) fun j hj => ?_
        rcases Finset.mem_insert.mp hj with h | h
        · omega
        · exact Nat.lt_succ_of_lt (hs0 j h)
      rw [h1, h2, h3]
  | a :: rest, k, (i + 1), hs, hi => by
      have ih := survivorsFrom_eraseIdx sel rest (k + 1) i
        (fun j hj => by have := hs j hj; omega) (by simpa using hi)
      have harith : k + 1 + i = k + (i + 1) := by omega
      rw [harith] at ih
      have herase : (a :: rest).eraseIdx (i + 1) = a :: rest.eraseIdx i := rfl
      by_cases hk : k ∈ sel
      · have hk2 : k ∈ insert (k + (i + 1)) sel := Finset.mem_insert_of_mem hk
        rw [herase]
        simp [survivorsFrom, hk, hk2, ih]
      · have hk2 : k ∉ insert (k + (i + 1)) sel := by
          rw [Finset.mem_insert]
          push_neg
          exact ⟨by omega, hk⟩
        rw [herase]
        simp [survivorsFrom, hk, hk2, ih]

/-- Folding `eraseIdx` over a strictly descending list of valid indices
removes exactly the pages at those indices. -/
lemma foldl_eraseIdx {α : Type} :
    ∀ (ds : List ℕ) (l : List α), ds.Pairwise (· > ·) →
      (∀ i ∈ ds, i < l.length) →
      ds.foldl (fun d i => d.eraseIdx i) l = survivorsFrom ds.toFinset 0 l
  | [], l, _, _ => by
      rw [List.foldl_nil]
      exact (survivorsFrom_of_lt _ l 0 (by simp)).symm
  | i :: ds, l, hp, hlt => by
      have hp2 := List.pairwise_cons.mp hp
      have hi : i < l.length := hlt i (List.mem_cons_self i ds)
      have step := foldl_eraseIdx ds (l.eraseIdx i) hp2.2 (by
        intro j hj
        have hji : i > j := hp2.1 j hj
        have := List.length_eraseIdx_of_lt hi
        omega)
      rw [List.foldl_cons, step,
        survivorsFrom_eraseIdx ds.toFinset l 0 i
          (fun j hj => by simpa using hp2.1 j (List.mem_toFinset.mp hj)) hi]
      simp

/-- Folding `eraseIdx` over a strictly descending list of valid indices
shortens the list by exactly the number of indices. -/
lemma foldl_eraseIdx_length {α : Type} :
    ∀ (ds : List ℕ) (l : List α), ds.Pairwise (· > ·) →
      (∀ i ∈ ds, i < l.length) →
      (ds.foldl (fun d i => d.eraseIdx i) l).length = l.length - ds.length
  | [], l, _, _ => by simp
  | i :: ds, l, hp, hlt => by
      have hp2 := List.pairwise_cons.mp hp
      have hi : i < l.length := hlt i (List.mem_cons_self i ds)
      have hel := List.length_eraseIdx_of_lt hi
      have step := foldl_eraseIdx_length ds (l.eraseIdx i) hp2.2 (by
        intro j hj
        have hji : i > j := hp2.1 j hj
        omega)
      rw [List.foldl_cons, step, hel]
      simp only [List.length_cons]
      omega

/-- Survivors form a sublist of the original pages: their relative order
is the original one. -/
lemma survivorsFrom_sublist {α : Type} (sel : Finset ℕ) :
    ∀ (l : List α) (k : ℕ), List.Sublist (survivorsFrom sel k l) l
  | [], _ => List.Sublist.refl []
  | a :: rest, k => by
      by_cases hk : k ∈ sel
      · simp only [survivorsFrom, if_pos hk]
        exact (survivorsFrom_sublist sel rest (k + 1)).cons a
      · simp only [survivorsFrom, if_neg hk]
        exact (survivorsFrom_sublist sel rest (k + 1)).cons₂ a

/-- C7: deleting a valid selection `S` (descending-order removal) yields
exactly the non-selected pages in their original relative order, so the
result has `N - card S` pages and is a sublist of the original page
list. -/
theorem c7_delete {α : Type} (pages : List α) (sel : Finset ℕ)
    (hsub : ∀ i ∈ sel, i < pages.length) :
    handleDelete pages sel = survivors pages sel ∧
    (handleDelete pages sel).length = pages.length - sel.card ∧
    List.Sublist (handleDelete pages sel) pages := by
  have hpair : ((sel.sort (· ≤ ·)).reverse).Pairwise (· > ·) := by
    rw [List.pairwise_reverse]
    exact sel.sort_sorted_lt
  have hmem : ∀ i ∈ (sel.sort (· ≤ ·)).reverse, i < pages.length := by
    intro i hi
    exact hsub i (Finset.mem_sort (α := ℕ) (· ≤ ·) |>.mp
      (List.mem_reverse.mp hi))
  have htf : ((sel.sort (· ≤ ·)).reverse).toFinset = sel := by
    ext j
    simp [List.mem_toFinset, List.mem_reverse, Finset.mem_sort]
  have hlen : ((sel.sort (· ≤ ·)).reverse).length = sel.card := by
    rw [List.length_reverse, Finset.length_sort]
  refine ⟨?_, ?_, ?_⟩
  · rw [handleDelete, foldl_eraseIdx _ pages hpair hmem, htf]
    rfl
  · rw [handleDelete, foldl_eraseIdx_length _ pages hpair hmem, hlen]
  · rw [handleDelete, foldl_eraseIdx _ pages hpair hmem]
    exact survivorsFrom_sublist _ pages 0

/-- Witness for C7: deleting pages 1 and 3 from a four-page document
leaves the two survivors in order. -/
theorem c7_delete_witness :
    (∀ i ∈ ({1, 3} : Finset ℕ), i < ([10, 20, 30, 40] : List ℕ).length) ∧
    handleDelete [10, 20, 30, 40] ({1, 3} : Finset ℕ) =
      survivors [10, 20, 30, 40] {1, 3} ∧
    (handleDelete [10, 20, 30, 40] ({1, 3} : Finset ℕ)).length = 4 - 2 := by
  have h := c7_delete [10, 20, 30, 40] {1, 3} (by decide)
  refine ⟨by decide, h.1, ?_⟩
  rw [h.2.1, show ({1, 3} : Finset ℕ).card = 2 from by decide]
  rfl

end PdfClient
